import Mathlib

/-!
Verification development for the context budgeting and pruning engine of
the `ddb_agent` repository (files `context/budget.py`, `context/pruner.py`,
`context/context_builder.py`, `context/code_extractor_pruner.py`,
`token_counter.py`).

Embedding conventions:
* Python ints are `Nat`/`Int` (budgets are naturals; `Document.tokens` is an
  `Int` because the constructor default is `-1`).
* Python float weight arithmetic (`int(remaining * 0.40)`,
  `int(max_tokens * 0.8)`, `int(max_window_size * 0.9)`,
  `int(budget * avg_chars_per_token * 0.95)`) is modelled with exact rational
  arithmetic via natural / integer division by 100, 10, 10 and the 95/100
  factor respectively.
* The injected token counter `count_tokens(text, model)` is a parameter
  `count : String → Nat`; `estimateTokens` is the repository's fallback
  `_estimate_tokens` (`len(text) // 3`).
* The relevance oracle (prompt rendering, LLM transport, JSON cleaning and
  parsing in `_process_single_large_file`) is a parameter
  `oracle : String → Except String (List ExtractedSnippet)`; an exception
  anywhere in that pipeline is an `Except.error`.
* Python's stable `list.sort(key=...)` is modelled by the stable insertion
  sort `sortByKey`.
* The `try/except` bodies are modelled with `Except`; `ExtractPruner.prune`
  returning `None` from its exception handler is modelled by an
  `Option (List Document)` result.
-/

namespace DdbAgent

/-- A conversation message: the dicts `{"role": ..., "content": ...}` used by
`ContextBuilder`. -/
structure Message where
  role : String
  content : String
deriving DecidableEq

/-- `pruner.Document`: file path, source text, and token count.  The Python
constructor signature is `tokens: int = -1` and the guard is
`tokens if tokens != None else count_tokens(source_code)`, so any `int`
argument (including the default `-1`) is stored unchanged; documents built by
`_process_single_large_file` therefore carry `tokens = -1`. -/
structure Document where
  file_path : String
  source_code : String
  tokens : Int
deriving DecidableEq

/-- A line-range snippet dict `{"start_line": ..., "end_line": ...}` as parsed
from the oracle's JSON. -/
structure Snippet where
  start_line : Int
  end_line : Int
deriving DecidableEq

/-- `pruner.ExtractedSnippet`: a relevance score and the extracted text. -/
structure ExtractedSnippet where
  score : Int
  snippet : String
deriving DecidableEq

/-- `token_counter._estimate_tokens`: the fallback estimate `len(text) // 3`
used when no tokenizer is configured (as with the default model alias
`deepseek-default`, which is absent from `TOKENIZER_CONFIGS`). -/
def estimateTokens (text : String) : Nat :=
  text.length / 3

/-! ### Stable sort by an integer key, modelling Python's `list.sort(key=...)` -/

/-- Insert `a` into `l` before the first element with a strictly larger key;
equal keys keep the existing element first, which matches the stability of
Python's sort. -/
def insertByKey {α : Type} (key : α → Int) (a : α) : List α → List α
  | [] => [a]
  | b :: l => if key a ≤ key b then a :: b :: l else b :: insertByKey key a l

/-- Stable insertion sort by `key`, the model of `list.sort(key=...)`. -/
def sortByKey {α : Type} (key : α → Int) : List α → List α
  | [] => []
  | a :: l => insertByKey key a (sortByKey key l)

theorem insertByKey_perm {α : Type} (key : α → Int) (a : α) (l : List α) :
    (insertByKey key a l).Perm (a :: l) := by
  induction l with
  | nil => simp [insertByKey]
  | cons b t ih =>
    by_cases h : key a ≤ key b
    · simp [insertByKey, h]
    · simp only [insertByKey, if_neg h]
      exact (ih.cons b).trans (List.Perm.swap a b t)

theorem sortByKey_perm {α : Type} (key : α → Int) (l : List α) :
    (sortByKey key l).Perm l := by
  induction l with
  | nil => simp [sortByKey]
  | cons a t ih =>
    exact (insertByKey_perm key a (sortByKey key t)).trans (ih.cons a)

theorem insertByKey_pairwise {α : Type} (key : α → Int) (a : α) (l : List α)
    (h : l.Pairwise (fun x y => key x ≤ key y)) :
    (insertByKey key a l).Pairwise (fun x y => key x ≤ key y) := by
  induction l with
  | nil => simp [insertByKey]
  | cons b t ih =>
    rcases List.pairwise_cons.mp h with ⟨hb, ht⟩
    by_cases hab : key a ≤ key b
    · simp only [insertByKey, if_pos hab]
      refine List.pairwise_cons.mpr ⟨?_, h⟩
      intro x hx
      rcases List.mem_cons.mp hx with hx | hx
      · exact hx ▸ hab
      · exact hab.trans (hb x hx)
    · simp only [insertByKey, if_neg hab]
      refine List.pairwise_cons.mpr ⟨?_, ih ht⟩
      intro x hx
      have hx' := (insertByKey_perm key a t).mem_iff.mp hx
      rcases List.mem_cons.mp hx' with hx' | hx'
      · subst hx'
        exact le_of_not_le hab
      · exact hb x hx'

theorem sortByKey_pairwise {α : Type} (key : α → Int) (l : List α) :
    (sortByKey key l).Pairwise (fun x y => key x ≤ key y) := by
  induction l with
  | nil => simp [sortByKey]
  | cons a t ih => exact insertByKey_pairwise key a (sortByKey key t) ih

theorem sortByKey_eq_of_pairwise {α : Type} (key : α → Int) :
    ∀ l : List α, l.Pairwise (fun x y => key x ≤ key y) → sortByKey key l = l := by
  intro l
  induction l with
  | nil => intro _; rfl
  | cons a t ih =>
    intro h
    rcases List.pairwise_cons.mp h with ⟨ha, ht⟩
    have : sortByKey key (a :: t) = insertByKey key a (sortByKey key t) := rfl
    rw [this, ih ht]
    cases t with
    | nil => rfl
    | cons b t' => simp [insertByKey, ha b (by simp)]

/-- Sorting two permuted lists whose keys are pairwise distinct yields the
same list: the sorted order is then unique. -/
theorem sortByKey_eq_of_perm_of_distinct {α : Type} (key : α → Int)
    (l₁ l₂ : List α) (hperm : l₁.Perm l₂)
    (hdist : l₁.Pairwise (fun x y => key x ≠ key y)) :
    sortByKey key l₁ = sortByKey key l₂ := by
  have p : (sortByKey key l₁).Perm (sortByKey key l₂) :=
    ((sortByKey_perm key l₁).trans hperm).trans (sortByKey_perm key l₂).symm
  have hsymm : ∀ {x y : α}, key x ≠ key y → key y ≠ key x :=
    fun hxy hyx => hxy hyx.symm
  have d₁ : (sortByKey key l₁).Pairwise (fun x y => key x ≠ key y) :=
    ((sortByKey_perm key l₁).pairwise_iff hsymm).mpr hdist
  have d₂ : (sortByKey key l₂).Pairwise (fun x y => key x ≠ key y) :=
    ((sortByKey_perm key l₂).pairwise_iff hsymm).mpr
      ((hperm.pairwise_iff hsymm).mp hdist)
  have s₁ : (sortByKey key l₁).Pairwise (fun x y => key x < key y) :=
    ((sortByKey_pairwise key l₁).and d₁).imp (fun h => lt_of_le_of_ne h.1 h.2)
  have s₂ : (sortByKey key l₂).Pairwise (fun x y => key x < key y) :=
    ((sortByKey_pairwise key l₂).and d₂).imp (fun h => lt_of_le_of_ne h.1 h.2)
  haveI : IsAntisymm α (fun x y => key x < key y) :=
    ⟨fun _ _ h1 h2 => absurd (h1.trans h2) (lt_irrefl _)⟩
  exact List.eq_of_perm_of_sorted p s₁ s₂

/-! ### `context/budget.py`: `CONTEXT_WEIGHTS` and `ContextBudget` -/

/-- Task-type tags selecting a weighting profile (`CONTEXT_WEIGHTS` keys). -/
inductive TaskType where
  | default
  | coding
  | chat
deriving DecidableEq

/-- `CONTEXT_WEIGHTS` as percentages `(conversation_history, file_context)`:
`default ↦ (0.40, 0.60)`, `coding ↦ (0.25, 0.75)`, `chat ↦ (0.70, 0.30)`. -/
def contextWeights : TaskType → Nat × Nat
  | .default => (40, 60)
  | .coding => (25, 75)
  | .chat => (70, 30)

/-- The error raised by `ContextBudget.__init__` when the system prompt alone
exceeds or equals the total safe zone (a `ValueError` in the source). -/
inductive BudgetError where
  | systemPromptExceedsSafeZone
deriving DecidableEq

/-- The fields computed by `ContextBudget.__init__`. -/
structure ContextBudget where
  system_prompt_tokens : Nat
  history_budget : Nat
  file_context_budget : Nat
deriving DecidableEq

/-- `ContextBudget.__init__` followed by `_adjust_budgets`: reserve the system
prompt, split the remainder by the profile weights (floor division models
`int(remaining * w)`), then add the rounding residual to the part with the
larger weight. -/
def makeContextBudget (total_safe_zone system_prompt_tokens : Nat)
    (task_type : TaskType) : Except BudgetError ContextBudget :=
  if total_safe_zone ≤ system_prompt_tokens then
    Except.error BudgetError.systemPromptExceedsSafeZone
  else
    let remaining := total_safe_zone - system_prompt_tokens
    let w := contextWeights task_type
    let history_budget := remaining * w.1 / 100
    let file_context_budget := remaining * w.2 / 100
    let diff := remaining - (history_budget + file_context_budget)
    if w.1 < w.2 then
      Except.ok ⟨system_prompt_tokens, history_budget, file_context_budget + diff⟩
    else
      Except.ok ⟨system_prompt_tokens, history_budget + diff, file_context_budget⟩

theorem makeContextBudget_ok (T S : Nat) (p : TaskType) (h : S < T) :
    ∃ b, makeContextBudget T S p = Except.ok b ∧
      b.system_prompt_tokens = S ∧
      b.history_budget + b.file_context_budget = T - S := by
  have hTS : ¬ T ≤ S := not_le.mpr h
  cases p
  all_goals
    unfold makeContextBudget
    rw [if_neg hTS]
    refine ⟨_, rfl, rfl, ?_⟩
    dsimp only [contextWeights]
    omega

/-- C1: with `systemPromptTokens < totalSafeZone` and any of the three task
profiles, `ContextBudget` succeeds and the two sub-budgets sum exactly to
`totalSafeZone - systemPromptTokens`; both are non-negative naturals. -/
theorem budget_sum_invariant (T S : Nat) (p : TaskType) (h : S < T) :
    ∃ b, makeContextBudget T S p = Except.ok b ∧
      b.history_budget + b.file_context_budget = T - S ∧
      0 ≤ b.history_budget ∧ 0 ≤ b.file_context_budget := by
  rcases makeContextBudget_ok T S p h with ⟨b, hb, _, hsum⟩
  exact ⟨b, hb, hsum, Nat.zero_le _, Nat.zero_le _⟩

/-- Witness for C1: the spec's end-to-end example, safe zone 1000, system
prompt 100 tokens, `chat` profile. -/
theorem budget_sum_invariant_witness :
    ∃ b, makeContextBudget 1000 100 TaskType.chat = Except.ok b ∧
      b.history_budget + b.file_context_budget = 1000 - 100 ∧
      0 ≤ b.history_budget ∧ 0 ≤ b.file_context_budget :=
  budget_sum_invariant 1000 100 TaskType.chat (by decide)

/-! ### `ContextBuilder._prune_conversation_history` -/

/-- The loop body of `_prune_conversation_history`: iterate over the reversed
conversation list, keep prepending messages while they fit, and `break` (by
returning the accumulator) at the first message that does not fit. -/
def pruneHistoryGo (count : String → Nat) (budget : Nat) :
    List Message → List Message → Nat → List Message
  | [], acc, _ => acc
  | msg :: rest, acc, current_tokens =>
    let msg_tokens := count msg.content
    if current_tokens + msg_tokens ≤ budget then
      pruneHistoryGo count budget rest (msg :: acc) (current_tokens + msg_tokens)
    else
      acc

/-- `ContextBuilder._prune_conversation_history`: walk the conversation from
newest (end) to oldest, keeping a sliding window that fits in `budget`. -/
def pruneConversationHistory (count : String → Nat)
    (conversations : List Message) (budget : Nat) : List Message :=
  pruneHistoryGo count budget conversations.reverse [] 0

/-- Total token cost of a message list under the injected counter. -/
def messagesTokens (count : String → Nat) (l : List Message) : Nat :=
  (l.map (fun m => count m.content)).sum

theorem pruneHistoryGo_take (count : String → Nat) (budget : Nat) :
    ∀ (rl acc : List Message) (current : Nat),
      ∃ k, pruneHistoryGo count budget rl acc current = (rl.take k).reverse ++ acc := by
  intro rl
  induction rl with
  | nil => exact fun acc current => ⟨0, rfl⟩
  | cons msg rest ih =>
    intro acc current
    by_cases hfit : current + count msg.content ≤ budget
    · rcases ih (msg :: acc) (current + count msg.content) with ⟨k, hk⟩
      refine ⟨k + 1, ?_⟩
      simp only [pruneHistoryGo, if_pos hfit]
      rw [hk]
      simp [List.take_succ_cons]
    · exact ⟨0, by simp [pruneHistoryGo, if_neg hfit]⟩

theorem pruneHistoryGo_budget (count : String → Nat) (budget : Nat) :
    ∀ (rl acc : List Message) (current : Nat),
      messagesTokens count acc ≤ current → current ≤ budget →
      messagesTokens count (pruneHistoryGo count budget rl acc current) ≤ budget := by
  intro rl
  induction rl with
  | nil => exact fun acc current hacc hcur => hacc.trans hcur
  | cons msg rest ih =>
    intro acc current hacc hcur
    by_cases hfit : current + count msg.content ≤ budget
    · simp only [pruneHistoryGo, if_pos hfit]
      refine ih (msg :: acc) (current + count msg.content) ?_ hfit
      simp only [messagesTokens, List.map_cons, List.sum_cons] at hacc ⊢
      omega
    · simpa only [pruneHistoryGo, if_neg hfit] using hacc.trans hcur

theorem pruneConversationHistory_suffix (count : String → Nat)
    (conversations : List Message) (budget : Nat) :
    ∃ t, t ++ pruneConversationHistory count conversations budget = conversations := by
  rcases pruneHistoryGo_take count budget conversations.reverse [] 0 with ⟨k, hk⟩
  refine ⟨(conversations.reverse.drop k).reverse, ?_⟩
  rw [pruneConversationHistory, hk]
  rw [List.append_nil, ← List.reverse_append, List.take_append_drop, List.reverse_reverse]

/-- The concrete conversation of the claim: costs 10, 20, 5, 50 (oldest to
newest) when the injected counter is `String.length`. -/
def c3Msgs : List Message :=
  [⟨"user", "aaaaaaaaaa"⟩,
   ⟨"assistant", "bbbbbbbbbbbbbbbbbbbb"⟩,
   ⟨"user", "ccccc"⟩,
   ⟨"user", "dddddddddddddddddddddddddddddddddddddddddddddddddd"⟩]

/-- Counterexample to C3: with message costs 10, 20, 5, 50 and budget 30 the
code returns the empty list, not the messages of cost 20 and 5 — the loop
`break`s at the newest message (cost 50) and never tries the older ones. -/
theorem prune_history_break_counterexample :
    pruneConversationHistory String.length c3Msgs 30 ≠
      [⟨"assistant", "bbbbbbbbbbbbbbbbbbbb"⟩, ⟨"user", "ccccc"⟩] ∧
    pruneConversationHistory String.length c3Msgs 30 = [] := by
  constructor
  · decide
  · decide

/-- C3 as amended: the history pruner walks the conversation from newest to
oldest, greedily accumulating token cost, and stops at the first message that
does not fit — older messages are not tried after that.  The result is always
a suffix of the conversation, in original chronological order, whose total
cost fits the budget; for costs [10, 20, 5, 50] with budget 30 the newest
message alone exceeds the budget, so the result is empty. -/
theorem prune_history_amended :
    (∀ (count : String → Nat) (conversations : List Message) (budget : Nat),
      (∃ t, t ++ pruneConversationHistory count conversations budget = conversations) ∧
      messagesTokens count (pruneConversationHistory count conversations budget) ≤ budget) ∧
    pruneConversationHistory String.length c3Msgs 30 = [] := by
  refine ⟨fun count conversations budget => ⟨?_, ?_⟩, by decide⟩
  · exact pruneConversationHistory_suffix count conversations budget
  · exact pruneHistoryGo_budget count budget conversations.reverse [] 0
      (by simp [messagesTokens]) (Nat.zero_le _)

/-! ### `pruner.DeletePruner` -/

/-- `BasePruner._count_total_tokens`. -/
def countTotalTokens (sources : List Document) : Int :=
  (sources.map Document.tokens).sum

/-- The greedy loop of `DeletePruner.prune`: accumulate whole documents in
order while they fit, and `break` at the first one that would exceed the
limit. -/
def deletePruneGo (max_tokens : Int) : List Document → Int → List Document
  | [], _ => []
  | source :: rest, current_tokens =>
    if current_tokens + source.tokens ≤ max_tokens then
      source :: deletePruneGo max_tokens rest (current_tokens + source.tokens)
    else
      []

/-- `DeletePruner.prune`: return the input unchanged when it already fits,
otherwise run the greedy loop from zero. -/
def deletePrune (max_tokens : Int) (file_sources : List Document) : List Document :=
  if countTotalTokens file_sources ≤ max_tokens then file_sources
  else deletePruneGo max_tokens file_sources 0

/-- The concrete documents of the claim: importance-ordered, 100, 50 and 80
tokens. -/
def c4DocA : Document := ⟨"docA", "", 100⟩

def c4DocB : Document := ⟨"docB", "", 50⟩

def c4DocC : Document := ⟨"docC", "", 80⟩

/-- Counterexample to C4: on [docA(100), docB(50), docC(80)] with budget 140
the code returns [docA] only — docA + docB is already 150 > 140, so the loop
stops at docB and docB is dropped as well, not just docC. -/
theorem delete_prune_budget140_counterexample :
    deletePrune 140 [c4DocA, c4DocB, c4DocC] ≠ [c4DocA, c4DocB] ∧
    deletePrune 140 [c4DocA, c4DocB, c4DocC] = [c4DocA] := by
  constructor
  · decide
  · decide

theorem deletePruneGo_front (max_tokens : Int) :
    ∀ (l : List Document) (current : Int),
      ∃ t, deletePruneGo max_tokens l current ++ t = l := by
  intro l
  induction l with
  | nil => exact fun current => ⟨[], rfl⟩
  | cons source rest ih =>
    intro current
    by_cases hfit : current + source.tokens ≤ max_tokens
    · rcases ih (current + source.tokens) with ⟨t, ht⟩
      exact ⟨t, by simp only [deletePruneGo, if_pos hfit, List.cons_append, ht]⟩
    · exact ⟨source :: rest, by simp only [deletePruneGo, if_neg hfit, List.nil_append]⟩

/-- C4 as amended: on [docA(100), docB(50), docC(80)] with budget 140 the
pruner returns [docA] (docB would raise the total to 150 > 140, so the loop
stops there and docB and docC are dropped); in general the result is an
initial segment of the input — order preserved, documents kept whole. -/
theorem delete_prune_amended :
    deletePrune 140 [c4DocA, c4DocB, c4DocC] = [c4DocA] ∧
    ∀ (max_tokens : Int) (file_sources : List Document),
      ∃ t, deletePrune max_tokens file_sources ++ t = file_sources := by
  refine ⟨by decide, fun max_tokens file_sources => ?_⟩
  by_cases hall : countTotalTokens file_sources ≤ max_tokens
  · exact ⟨[], by simp [deletePrune, hall]⟩
  · rcases deletePruneGo_front max_tokens file_sources 0 with ⟨t, ht⟩
    exact ⟨t, by simp only [deletePrune, if_neg hall, ht]⟩

/-! ### `pruner.ExtractPruner` -/

/-- The per-snippet text appended by `_process_single_large_file` for each
high-score snippet. -/
def snippetPart (item : ExtractedSnippet) : String :=
  "\n# Relevance Score: " ++ toString item.score ++ "\n---\n" ++ item.snippet ++ "\n"

/-- `ExtractPruner._process_single_large_file`.  The `oracle` parameter is the
whole fallible pipeline inside the `try`: prompt rendering, the LLM call,
backslash cleaning, `parse_json_string` and `ExtractedSnippet` validation; any
exception there is `Except.error` and is mapped to an empty-content Document
by the `except` clause.  Snippets scoring below 5 are dropped; survivors are
sorted by descending score (stable, modelling `sort(key=..., reverse=True)`)
and concatenated after a header.  All documents built here get the
constructor default `tokens = -1`. -/
def processSingleLargeFile (oracle : String → Except String (List ExtractedSnippet))
    (file_source : Document) : Document :=
  match oracle file_source.source_code with
  | Except.error _ => ⟨file_source.file_path, "", -1⟩
  | Except.ok extracted_items =>
    let high_score_snippets := extracted_items.filter (fun item => 5 ≤ item.score)
    if high_score_snippets.isEmpty then
      ⟨file_source.file_path, "", -1⟩
    else
      let sorted_snippets := sortByKey (fun item => -item.score) high_score_snippets
      let new_content :=
        "# Highly relevant snippets from " ++ file_source.file_path ++
          " (filtered by score >= 5):\n" ++
          String.join (sorted_snippets.map snippetPart)
      ⟨file_source.file_path, new_content, -1⟩

/-- The small/large classification loop at the top of `ExtractPruner.prune`.
An entry that is `none` (Python `None`) raises `AttributeError` when
`source.tokens` is read — the loop's `if source is None` only prints a
warning and does not skip — so the whole body aborts into the `except`
handler, modelled as `Except.error ()`. -/
def partitionFiles (threshold : Int) :
    List (Option Document) → Int → Except Unit (List Document × List Document)
  | [], _ => Except.ok ([], [])
  | none :: _, _ => Except.error ()
  | some source :: rest, current_tokens =>
    if current_tokens + source.tokens ≤ threshold then
      match partitionFiles threshold rest (current_tokens + source.tokens) with
      | Except.error e => Except.error e
      | Except.ok (small_files, large_files) =>
        Except.ok (source :: small_files, large_files)
    else
      match partitionFiles threshold rest current_tokens with
      | Except.error e => Except.error e
      | Except.ok (small_files, large_files) =>
        Except.ok (small_files, source :: large_files)

/-- The list of documents submitted to the thread-pool workers in
`ExtractPruner.prune`: after the classification loop, the line
`large_files += small_files` (tagged `# 测试`) appends every small file to the
worker list, so all documents are dispatched. -/
def dispatchedFiles (max_tokens : Int) (file_sources : List (Option Document)) :
    List Document :=
  match partitionFiles (max_tokens * 8 / 10) file_sources 0 with
  | Except.error _ => []
  | Except.ok (small_files, large_files) => large_files ++ small_files

/-- The final accumulation loop of `ExtractPruner.prune`: iterate over the
(already sorted) processed documents; accept a document when
`final_tokens + source.tokens <= max_tokens`, and on acceptance advance the
accumulator by `count_tokens(source.source_code)` (the code adds the fresh
count, not the stored `tokens` field, which is `-1` for processed
documents); a rejected document is skipped, not a loop exit. -/
def binPack (count : String → Nat) (max_tokens : Int) :
    List Document → Int → List Document
  | [], _ => []
  | source :: rest, final_tokens =>
    if final_tokens + source.tokens ≤ max_tokens then
      source :: binPack count max_tokens rest (final_tokens + (count source.source_code : Int))
    else
      binPack count max_tokens rest final_tokens

/-- The final bin-pack step of `ExtractPruner.prune`: stable sort the
processed documents by ascending `tokens`, then run the accumulation loop
from zero.  The input order is the completion order of the concurrent
extraction tasks. -/
def finalBinPack (count : String → Nat) (max_tokens : Int)
    (processed : List Document) : List Document :=
  binPack count max_tokens (sortByKey Document.tokens processed) 0

/-- `ExtractPruner.prune`: classify, dispatch every file to the extraction
workers (`large_files += small_files`), process each worker task, sort the
results by token count and bin-pack them.  The whole body runs inside
`try/except`; the handler only logs and falls off the end of the function,
returning Python `None` — hence the `Option` result.  Worker completion
order (`as_completed`) is modelled as submission order; claim C2 treats the
completion order as an arbitrary permutation. -/
def extractPrune (oracle : String → Except String (List ExtractedSnippet))
    (count : String → Nat) (max_tokens : Int)
    (file_sources : List (Option Document)) : Option (List Document) :=
  match partitionFiles (max_tokens * 8 / 10) file_sources 0 with
  | Except.error _ => none
  | Except.ok (small_files, large_files) =>
    let dispatch := large_files ++ small_files
    let processed_large_files := dispatch.map (processSingleLargeFile oracle)
    some (finalBinPack count max_tokens processed_large_files)

theorem binPack_sublist (count : String → Nat) (max_tokens : Int) :
    ∀ (l : List Document) (final_tokens : Int),
      (binPack count max_tokens l final_tokens).Sublist l := by
  intro l
  induction l with
  | nil => exact fun _ => List.Sublist.refl []
  | cons source rest ih =>
    intro final_tokens
    by_cases hfit : final_tokens + source.tokens ≤ max_tokens
    · simpa only [binPack, if_pos hfit] using
        (ih (final_tokens + (count source.source_code : Int))).cons₂ source
    · simpa only [binPack, if_neg hfit] using (ih final_tokens).cons source

/-- Two processed documents with the same stored token count (-1, the
constructor default carried by every extraction result) but different
contents. -/
def c2Doc1 : Document := ⟨"a.py", "xxxxxx", 0⟩

def c2Doc2 : Document := ⟨"b.py", "yyyyyy", 0⟩

/-- Counterexample to C2: the two completion orders of the same two processed
documents are permutations of each other, yet the bin-pack keeps `a.py` under
one order and `b.py` under the other — with tied token costs the stable sort
preserves completion order, and the acceptance check advances by the fresh
token count of the already accepted content, so the selected set differs. -/
theorem binpack_completion_order_counterexample :
    ([c2Doc1, c2Doc2] : List Document).Perm [c2Doc2, c2Doc1] ∧
    finalBinPack estimateTokens 1 [c2Doc1, c2Doc2] = [c2Doc1] ∧
    finalBinPack estimateTokens 1 [c2Doc2, c2Doc1] = [c2Doc2] ∧
    c2Doc1 ≠ c2Doc2 := by
  refine ⟨?_, by decide, by decide, by decide⟩
  decide

/-- C2 as amended: the final bin-pack sorts the processed documents by
ascending stored token cost and accumulates them while
`final_tokens + tokens ≤ budget` (the result is a selection from the sorted
list); the selected documents are independent of the completion order of the
concurrent extraction tasks **provided** the processed documents' token
counts are pairwise distinct — with ties, completion order decides which of
the tied documents survive. -/
theorem binpack_deterministic_of_distinct_tokens (count : String → Nat)
    (max_tokens : Int) (l₁ l₂ : List Document) (hperm : l₁.Perm l₂)
    (hdist : l₁.Pairwise (fun a b => a.tokens ≠ b.tokens)) :
    finalBinPack count max_tokens l₁ = finalBinPack count max_tokens l₂ ∧
    (finalBinPack count max_tokens l₁).Sublist (sortByKey Document.tokens l₁) := by
  constructor
  · unfold finalBinPack
    rw [sortByKey_eq_of_perm_of_distinct Document.tokens l₁ l₂ hperm hdist]
  · exact binPack_sublist count max_tokens (sortByKey Document.tokens l₁) 0

/-- Witness for C2's amended theorem at two concrete completion orders with
distinct token counts. -/
theorem binpack_deterministic_witness :
    finalBinPack estimateTokens 10 [⟨"a", "aa", 1⟩, ⟨"b", "bb", 2⟩] =
      finalBinPack estimateTokens 10 [⟨"b", "bb", 2⟩, ⟨"a", "aa", 1⟩] ∧
    (finalBinPack estimateTokens 10 [⟨"a", "aa", 1⟩, ⟨"b", "bb", 2⟩]).Sublist
      (sortByKey Document.tokens [⟨"a", "aa", 1⟩, ⟨"b", "bb", 2⟩]) :=
  binpack_deterministic_of_distinct_tokens estimateTokens 10
    [⟨"a", "aa", 1⟩, ⟨"b", "bb", 2⟩] [⟨"b", "bb", 2⟩, ⟨"a", "aa", 1⟩]
    (by decide) (by decide)

/-- A small document: 10 tokens against a 100-token budget (threshold 80). -/
def c5Doc : Document := ⟨"util.py", "x = 1", 10⟩

/-- An oracle standing in for any failing extraction pipeline. -/
def noOracle : String → Except String (List ExtractedSnippet) :=
  fun _ => Except.error "no oracle"

/-- C5 is refuted by the code: the classification loop does mark the 10-token
document as small against budget 100 (threshold 80), but the subsequent
`large_files += small_files` line dispatches it to the extraction workers
anyway, and the pruner's output for it is the worker's result (here, an
empty-content document), not the original kept whole. -/
theorem small_file_dispatched_to_workers :
    partitionFiles 80 [some c5Doc] 0 = Except.ok ([c5Doc], []) ∧
    dispatchedFiles 100 [some c5Doc] = [c5Doc] ∧
    extractPrune noOracle estimateTokens 100 [some c5Doc] =
      some [⟨"util.py", "", -1⟩] ∧
    c5Doc.source_code ≠ "" := by
  refine ⟨rfl, by decide, by decide, by decide⟩

/-- The oracle of the claim's failure scenario: it raises on the second
document's content and succeeds on the others. -/
def c6Oracle : String → Except String (List ExtractedSnippet) :=
  fun s => if s = "BBB" then Except.error "oracle failure"
    else Except.ok [⟨7, "SNIP:" ++ s⟩]

def c6Doc1 : Document := ⟨"f1", "AAA", 5⟩

def c6Doc2 : Document := ⟨"f2", "BBB", 5⟩

def c6Doc3 : Document := ⟨"f3", "CCC", 5⟩

/-- C6: a document whose oracle call or response parsing fails is mapped by
the per-document task to an empty-content Document under its identifier (the
`except` clause), every document is processed independently (the batch is a
pointwise map over the dispatched list), and in the three-document failure
scenario the other two documents' extracted content still appears in the
pruner's output, with no failure escaping — the result is `some` list, not an
error. -/
theorem extract_failure_isolated
    (oracle : String → Except String (List ExtractedSnippet))
    (d : Document) (e : String)
    (h : oracle d.source_code = Except.error e) :
    processSingleLargeFile oracle d = ⟨d.file_path, "", -1⟩ ∧
    extractPrune c6Oracle estimateTokens 1000 [some c6Doc1, some c6Doc2, some c6Doc3] =
      some [processSingleLargeFile c6Oracle c6Doc1, ⟨"f2", "", -1⟩,
        processSingleLargeFile c6Oracle c6Doc3] ∧
    (processSingleLargeFile c6Oracle c6Doc1).source_code ≠ "" := by
  refine ⟨?_, by decide, by decide⟩
  unfold processSingleLargeFile
  rw [h]

/-- Witness for C6 at the failing document of the concrete scenario. -/
theorem extract_failure_isolated_witness :
    processSingleLargeFile c6Oracle c6Doc2 = ⟨"f2", "", -1⟩ ∧
    extractPrune c6Oracle estimateTokens 1000 [some c6Doc1, some c6Doc2, some c6Doc3] =
      some [processSingleLargeFile c6Oracle c6Doc1, ⟨"f2", "", -1⟩,
        processSingleLargeFile c6Oracle c6Doc3] ∧
    (processSingleLargeFile c6Oracle c6Doc1).source_code ≠ "" :=
  extract_failure_isolated c6Oracle c6Doc2 "oracle failure" rfl

theorem partitionFiles_error (threshold : Int) :
    ∀ (l : List (Option Document)) (current : Int), none ∈ l →
      partitionFiles threshold l current = Except.error () := by
  intro l
  induction l with
  | nil => intro current h; exact absurd h (List.not_mem_nil none)
  | cons hd rest ih =>
    intro current h
    cases hd with
    | none => rfl
    | some source =>
      have hrest : none ∈ rest := by
        rcases List.mem_cons.mp h with h | h
        · exact absurd h (by simp)
        · exact h
      by_cases hfit : current + source.tokens ≤ threshold
      · simp only [partitionFiles, if_pos hfit, ih (current + source.tokens) hrest]
      · simp only [partitionFiles, if_neg hfit, ih current hrest]

/-- C10: when the body of `ExtractPruner.prune` raises — as it does when an
entry of the input list is `None`, whose `tokens` attribute read fails in the
classification loop — the `except` handler logs and falls off the end of the
function, so the caller receives Python `None` (here `Option.none`) instead
of any document list. -/
theorem prune_catches_and_returns_none
    (oracle : String → Except String (List ExtractedSnippet))
    (count : String → Nat) (max_tokens : Int)
    (file_sources : List (Option Document)) (h : none ∈ file_sources) :
    extractPrune oracle count max_tokens file_sources = none := by
  unfold extractPrune
  rw [partitionFiles_error (max_tokens * 8 / 10) file_sources 0 h]

/-- Witness for C10: a singleton list holding `None`. -/
theorem prune_returns_none_witness :
    extractPrune noOracle estimateTokens 100 [none] = none :=
  prune_catches_and_returns_none noOracle estimateTokens 100 [none] (by decide)

/-! ### `_merge_overlapping_snippets` (identical in `ExtractPruner` and
`CodeExtractorPruner`) -/

/-- The merge loop: `last` is `merged[-1]`; a range whose start is within
`last.end_line + 1` extends `last` (adjacent-or-overlap rule), otherwise
`last` is emitted and the range becomes the new `last`. -/
def mergeSorted (last : Snippet) : List Snippet → List Snippet
  | [] => [last]
  | current :: rest =>
    if current.start_line ≤ last.end_line + 1 then
      mergeSorted ⟨last.start_line, max last.end_line current.end_line⟩ rest
    else
      last :: mergeSorted current rest

/-- `_merge_overlapping_snippets`: return `[]` on empty input, otherwise sort
by `start_line` (stable) and run the merge loop seeded with the first
range. -/
def mergeOverlappingSnippets (snippets : List Snippet) : List Snippet :=
  match sortByKey Snippet.start_line snippets with
  | [] => []
  | first :: rest => mergeSorted first rest

theorem mergeSorted_head :
    ∀ (l : List Snippet) (a : Snippet),
      ∃ a' l', mergeSorted a l = a' :: l' ∧ a'.start_line = a.start_line := by
  intro l
  induction l with
  | nil => exact fun a => ⟨a, [], rfl, rfl⟩
  | cons c rest ih =>
    intro a
    by_cases h : c.start_line ≤ a.end_line + 1
    · rcases ih ⟨a.start_line, max a.end_line c.end_line⟩ with ⟨a', l', heq, hstart⟩
      exact ⟨a', l', by simp only [mergeSorted, if_pos h, heq], hstart⟩
    · exact ⟨a, mergeSorted c rest, by simp only [mergeSorted, if_neg h], rfl⟩

theorem mergeSorted_mem_start :
    ∀ (l : List Snippet) (a x : Snippet), x ∈ mergeSorted a l →
      ∃ y ∈ a :: l, x.start_line = y.start_line := by
  intro l
  induction l with
  | nil =>
    intro a x hx
    simp only [mergeSorted] at hx
    exact ⟨a, by simp, by rw [List.mem_singleton.mp hx]⟩
  | cons c rest ih =>
    intro a x hx
    by_cases h : c.start_line ≤ a.end_line + 1
    · simp only [mergeSorted, if_pos h] at hx
      rcases ih ⟨a.start_line, max a.end_line c.end_line⟩ x hx with ⟨y, hy, hs⟩
      rcases List.mem_cons.mp hy with hy | hy
      · exact ⟨a, by simp, by rw [hs, hy]⟩
      · exact ⟨y, by simp [hy], hs⟩
    · simp only [mergeSorted, if_neg h] at hx
      rcases List.mem_cons.mp hx with hx | hx
      · exact ⟨a, by simp, by rw [hx]⟩
      · rcases ih c x hx with ⟨y, hy, hs⟩
        exact ⟨y, List.mem_cons_of_mem a hy, hs⟩

theorem mergeSorted_chain :
    ∀ (l : List Snippet) (a : Snippet),
      (mergeSorted a l).Chain' (fun x y => x.end_line + 1 < y.start_line) := by
  intro l
  induction l with
  | nil => intro a; simp [mergeSorted]
  | cons c rest ih =>
    intro a
    by_cases h : c.start_line ≤ a.end_line + 1
    · simpa only [mergeSorted, if_pos h] using ih ⟨a.start_line, max a.end_line c.end_line⟩
    · simp only [mergeSorted, if_neg h]
      rcases mergeSorted_head rest c with ⟨c', l', heq, hstart⟩
      rw [heq]
      refine List.chain'_cons.mpr ⟨?_, heq ▸ ih c⟩
      rw [hstart]
      omega

theorem mergeSorted_pairwise :
    ∀ (l : List Snippet) (a : Snippet),
      (a :: l).Pairwise (fun x y => x.start_line ≤ y.start_line) →
      (mergeSorted a l).Pairwise (fun x y => x.start_line ≤ y.start_line) := by
  intro l
  induction l with
  | nil => intro a _; simp [mergeSorted]
  | cons c rest ih =>
    intro a hp
    rcases List.pairwise_cons.mp hp with ⟨ha, hp'⟩
    rcases List.pairwise_cons.mp hp' with ⟨hc, hrest⟩
    by_cases h : c.start_line ≤ a.end_line + 1
    · simp only [mergeSorted, if_pos h]
      refine ih ⟨a.start_line, max a.end_line c.end_line⟩ ?_
      refine List.pairwise_cons.mpr ⟨?_, hrest⟩
      intro x hx
      exact ha x (List.mem_cons_of_mem c hx)
    · simp only [mergeSorted, if_neg h]
      refine List.pairwise_cons.mpr ⟨?_, ih c hp'⟩
      intro x hx
      rcases mergeSorted_mem_start rest c x hx with ⟨y, hy, hs⟩
      rw [hs]
      exact ha y hy

theorem mergeSorted_eq_of_chain :
    ∀ (l : List Snippet) (a : Snippet),
      (a :: l).Chain' (fun x y => x.end_line + 1 < y.start_line) →
      mergeSorted a l = a :: l := by
  intro l
  induction l with
  | nil => intro a _; rfl
  | cons c rest ih =>
    intro a hchain
    rcases List.chain'_cons.mp hchain with ⟨hgap, hchain'⟩
    have h : ¬ c.start_line ≤ a.end_line + 1 := by omega
    simp only [mergeSorted, if_neg h, ih c hchain']

/-- C9: the range merger maps the empty list to the empty list and is
idempotent — its output is sorted by start line with a strict gap between
consecutive ranges, so re-sorting and re-merging leave it unchanged. -/
theorem merge_idempotent_and_empty :
    mergeOverlappingSnippets ([] : List Snippet) = [] ∧
    ∀ x : List Snippet,
      mergeOverlappingSnippets (mergeOverlappingSnippets x) =
        mergeOverlappingSnippets x := by
  refine ⟨rfl, fun x => ?_⟩
  cases hs : sortByKey Snippet.start_line x with
  | nil =>
    have hx : mergeOverlappingSnippets x = [] := by
      unfold mergeOverlappingSnippets
      rw [hs]
    rw [hx]
    rfl
  | cons a rest =>
    have hx : mergeOverlappingSnippets x = mergeSorted a rest := by
      unfold mergeOverlappingSnippets
      rw [hs]
    have hple : (a :: rest).Pairwise (fun x y => x.start_line ≤ y.start_line) := by
      have := sortByKey_pairwise Snippet.start_line x
      rw [hs] at this
      exact this
    have hout_le : (mergeSorted a rest).Pairwise
        (fun x y => x.start_line ≤ y.start_line) :=
      mergeSorted_pairwise rest a hple
    have hchain : (mergeSorted a rest).Chain'
        (fun x y => x.end_line + 1 < y.start_line) :=
      mergeSorted_chain rest a
    rcases mergeSorted_head rest a with ⟨a', l', heq, _⟩
    rw [hx]
    unfold mergeOverlappingSnippets
    rw [sortByKey_eq_of_pairwise Snippet.start_line (mergeSorted a rest) hout_le, heq]
    exact mergeSorted_eq_of_chain l' a' (heq ▸ hchain)

/-! ### `_build_snippet_content` (identical in `ExtractPruner` and
`CodeExtractorPruner`) -/

/-- Helper for `pySplitlines`: accumulate the current line (reversed) and
emit it at each newline; at end of input a non-empty trailing line is
emitted, a trailing newline is not followed by an empty entry. -/
def pySplitlinesAux : List Char → List Char → List String
  | [], acc => if acc.isEmpty then [] else [String.mk acc.reverse]
  | c :: rest, acc =>
    if c = '\n' then String.mk acc.reverse :: pySplitlinesAux rest []
    else pySplitlinesAux rest (c :: acc)

/-- Python `str.splitlines()` restricted to `"\n"` separators (the only line
terminator produced by this code, which assembles content with `"\n"`). -/
def pySplitlines (s : String) : List String :=
  pySplitlinesAux s.toList []

/-- Python list slicing `l[a:b]`: negative indices count from the end, and
both bounds are clamped into `[0, len(l)]`. -/
def pySlice {α : Type} (l : List α) (a b : Int) : List α :=
  let n : Int := l.length
  let a' := if a < 0 then max 0 (n + a) else min n a
  let b' := if b < 0 then max 0 (n + b) else min n b
  (l.take b'.toNat).drop a'.toNat

/-- `_build_snippet_content`: split the original code into lines, and for
each snippet emit a `# ... (lines A-B) ...` marker (with
`start = max(0, start_line - 1)` and `end = min(len(lines), end_line)`)
followed by the selected line span `lines[start:end]`; join everything with
newlines after the fixed header. -/
def buildSnippetContent (original_code : String) (snippets : List Snippet) : String :=
  let lines := pySplitlines original_code
  let parts := (snippets.map (fun sn =>
    let start := max 0 (sn.start_line - 1)
    let endIdx := min (lines.length : Int) sn.end_line
    ("\n# ... (lines " ++ toString (start + 1) ++ "-" ++ toString endIdx ++ ") ...\n")
      :: pySlice lines start endIdx)).flatten
  String.intercalate "\n" ("# Snippets from the original file:\n" :: parts)

/-- The typed error demanded by the spec for malformed line ranges. -/
inductive RangeError where
  | startGreaterThanEnd
deriving DecidableEq

/-- Modelled from the spec (§7, invalid input), not from the source: a range
merger that rejects a malformed LineRange (start > end) at the component
boundary with a typed error instead of processing it.  No such validation
exists anywhere in `pruner.py` or `code_extractor_pruner.py`; this definition
exists only to state what the claim asserts the code does. -/
def mergeRejectingMalformed (snippets : List Snippet) :
    Except RangeError (List Snippet) :=
  if snippets.any (fun sn => sn.end_line < sn.start_line) then
    Except.error RangeError.startGreaterThanEnd
  else
    Except.ok (mergeOverlappingSnippets snippets)

/-- Counterexample to C8: on the malformed range (5, 2) the code's merger
returns the range unchanged and the content builder produces a clamped
best-effort string (marker, empty line span) — no typed error is raised
anywhere, unlike the spec-modelled rejecting merger. -/
theorem malformed_range_no_rejection_counterexample :
    mergeOverlappingSnippets [⟨5, 2⟩] = [⟨5, 2⟩] ∧
    buildSnippetContent "line one\nline two\nline three" [⟨5, 2⟩] =
      "# Snippets from the original file:\n\n\n# ... (lines 5-2) ...\n" ∧
    mergeRejectingMalformed [⟨5, 2⟩] = Except.error RangeError.startGreaterThanEnd := by
  refine ⟨by decide, by decide, rfl⟩

theorem pySlice_eq_nil {α : Type} (l : List α) (a b : Int)
    (hb : 0 ≤ b) (hba : b ≤ a) : pySlice l a b = [] := by
  have ha : ¬ a < 0 := by omega
  have hb' : ¬ b < 0 := by omega
  simp only [pySlice]
  rw [if_neg ha, if_neg hb']
  apply List.drop_eq_nil_iff.mpr
  have h1 : (min (l.length : Int) b).toNat ≤ (min (l.length : Int) a).toNat :=
    Int.toNat_le_toNat (min_le_min (le_refl _) hba)
  calc (l.take (min (l.length : Int) b).toNat).length
      ≤ (min (l.length : Int) b).toNat := by
        rw [List.length_take]; exact min_le_left _ _
    _ ≤ (min (l.length : Int) a).toNat := h1

/-- C8 as amended: a malformed LineRange (start > end) is not rejected with a
typed error; the range merger passes it through untouched (for a singleton
input) and the content builder clamps it — `start = max(0, start_line - 1)`
is then at least `end = min(len(lines), end_line)`, so the emitted line span
is empty and only the header and the `lines A-B` marker appear. -/
theorem malformed_range_clamped (original_code : String) (s e : Int)
    (hmal : e < s) (he : 0 ≤ e) :
    mergeOverlappingSnippets [⟨s, e⟩] = [⟨s, e⟩] ∧
    buildSnippetContent original_code [⟨s, e⟩] =
      String.intercalate "\n" ["# Snippets from the original file:\n",
        "\n# ... (lines " ++ toString (max 0 (s - 1) + 1) ++ "-" ++
          toString (min ((pySplitlines original_code).length : Int) e) ++ ") ...\n"] := by
  constructor
  · rfl
  · unfold buildSnippetContent
    have hslice : pySlice (pySplitlines original_code) (max 0 (s - 1))
        (min ((pySplitlines original_code).length : Int) e) = [] := by
      apply pySlice_eq_nil
      · exact le_min (Int.ofNat_nonneg _) he
      · calc min ((pySplitlines original_code).length : Int) e
            ≤ e := min_le_right _ _
          _ ≤ s - 1 := by omega
          _ ≤ max 0 (s - 1) := le_max_right _ _
    simp only [List.map_cons, List.map_nil, hslice]
    simp

/-- Witness for C8's amended theorem at the malformed range (5, 2). -/
theorem malformed_range_clamped_witness :
    mergeOverlappingSnippets [⟨5, 2⟩] = [⟨5, 2⟩] ∧
    buildSnippetContent "line one\nline two\nline three" [⟨5, 2⟩] =
      String.intercalate "\n" ["# Snippets from the original file:\n",
        "\n# ... (lines " ++ toString (max 0 ((5 : Int) - 1) + 1) ++ "-" ++
          toString (min ((pySplitlines "line one\nline two\nline three").length : Int) 2) ++ ") ...\n"] :=
  malformed_range_clamped "line one\nline two\nline three" 5 2 (by decide) (by decide)

/-! ### `context_builder.ContextBuilder` -/

/-- `ContextBuilder.__init__`: the builder keeps the model name and window
size; `safe_zone = int(max_window_size * 0.9)`. -/
structure ContextBuilder where
  model_name : String
  max_window_size : Nat
deriving DecidableEq

/-- `self.safe_zone = int(max_window_size * 0.9)`. -/
def safeZone (builder : ContextBuilder) : Nat :=
  builder.max_window_size * 9 / 10

/-- `ContextBuilder._prune_system_prompt`: truncate at character level only
when the prompt's token count strictly exceeds the budget, using
`safe_chars = int(budget * avg_chars_per_token * 0.95)` with
`avg_chars_per_token = len(prompt) / count_tokens(prompt)` (the `count = 0`
fallback branch is unreachable when `count > budget`); otherwise return the
prompt unchanged. -/
def pruneSystemPrompt (count : String → Nat) (prompt : String) (budget : Nat) : String :=
  if budget < count prompt then
    prompt.take (budget * prompt.length * 95 / (count prompt * 100))
  else
    prompt

/-- `ContextBuilder.build` with the default `extract` file-pruning strategy.
When `ContextBudget` raises, the handler returns a minimal single-message
context through `_prune_system_prompt`.  Otherwise the history and the file
sources are pruned under their budgets and the final message list is
`[system] (+ assistant <CONTEXT_FILES> wrapper when the pruned file list is
truthy — Python `if pruned_file_sources:` is false for both `None` and `[]`)
(+ pruned history)`. -/
def buildContext (builder : ContextBuilder) (count : String → Nat)
    (oracle : String → Except String (List ExtractedSnippet))
    (system_prompt : String) (conversations : List Message)
    (file_sources : List (Option Document)) (task_type : TaskType) : List Message :=
  let system_prompt_tokens := count system_prompt
  match makeContextBudget (safeZone builder) system_prompt_tokens task_type with
  | Except.error _ =>
    [⟨"system", pruneSystemPrompt count system_prompt (safeZone builder)⟩]
  | Except.ok budget =>
    let pruned_conversations :=
      pruneConversationHistory count conversations budget.history_budget
    let pruned_file_sources :=
      extractPrune oracle count (budget.file_context_budget : Int) file_sources
    let final_messages : List Message :=
      match pruned_file_sources with
      | none => [⟨"system", system_prompt⟩]
      | some [] => [⟨"system", system_prompt⟩]
      | some fs =>
        [⟨"system", system_prompt⟩,
         ⟨"assistant", "<CONTEXT_FILES>\n" ++
           String.intercalate "\n---\n"
             (fs.map (fun f => "File: " ++ f.file_path ++ "\n\n" ++ f.source_code)) ++
           "\n</CONTEXT_FILES>"⟩]
    final_messages ++ pruned_conversations

/-- A builder with window size 3, hence safe zone `int(3 * 0.9) = 2`. -/
def c7Builder : ContextBuilder := ⟨"deepseek-default", 3⟩

/-- Counterexample to C7: with the counter `String.length`, prompt `"ab"`
(2 tokens) and safe zone 2, `ContextBudget` construction fails
(`2 >= 2`), but the minimal context keeps the prompt **unchanged** — the
truncation branch needs a strictly larger count, while the claimed
character-level ratio truncation would have produced `"a"`. -/
theorem build_boundary_no_truncation_counterexample :
    (makeContextBudget (safeZone c7Builder) (String.length "ab") TaskType.default =
      Except.error BudgetError.systemPromptExceedsSafeZone) ∧
    buildContext c7Builder String.length noOracle "ab" [] [] TaskType.default =
      [⟨"system", "ab"⟩] ∧
    ("ab" : String).take (2 * ("ab" : String).length * 95 / (String.length "ab" * 100)) = "a" ∧
    ("ab" : String) ≠ "a" := by
  refine ⟨rfl, by decide, by decide, by decide⟩

/-- C7 as amended: `ContextBudget` construction fails exactly when
`systemPromptTokens ≥ totalSafeZone`; in that case `build` returns, without
raising, a one-element list holding a system message whose content is the
prompt passed through `_prune_system_prompt` — which performs the
character-level ratio truncation only when the prompt's token count strictly
exceeds the safe zone, and returns the prompt whole at equality. -/
theorem budget_error_build_minimal_context (T S : Nat) (p : TaskType)
    (builder : ContextBuilder) (count : String → Nat)
    (oracle : String → Except String (List ExtractedSnippet))
    (prompt : String) (conversations : List Message)
    (file_sources : List (Option Document))
    (h : safeZone builder ≤ count prompt) :
    ((∃ e, makeContextBudget T S p = Except.error e) ↔ T ≤ S) ∧
    buildContext builder count oracle prompt conversations file_sources p =
      [⟨"system", pruneSystemPrompt count prompt (safeZone builder)⟩] ∧
    (∀ budget : Nat, budget < count prompt →
      pruneSystemPrompt count prompt budget =
        prompt.take (budget * prompt.length * 95 / (count prompt * 100))) ∧
    (∀ budget : Nat, count prompt ≤ budget →
      pruneSystemPrompt count prompt budget = prompt) := by
  refine ⟨⟨?_, ?_⟩, ?_, ?_, ?_⟩
  · intro ⟨e, he⟩
    by_contra hTS
    rcases makeContextBudget_ok T S p (not_le.mp hTS) with ⟨b, hb, _, _⟩
    rw [hb] at he
    exact Except.noConfusion he
  · intro hTS
    refine ⟨BudgetError.systemPromptExceedsSafeZone, ?_⟩
    unfold makeContextBudget
    rw [if_pos hTS]
  · simp only [buildContext]
    rw [show makeContextBudget (safeZone builder) (count prompt) p =
      Except.error BudgetError.systemPromptExceedsSafeZone by
        unfold makeContextBudget
        rw [if_pos h]]
  · intro budget hb
    unfold pruneSystemPrompt
    rw [if_pos hb]
  · intro budget hb
    unfold pruneSystemPrompt
    rw [if_neg (not_lt.mpr hb)]

/-- Witness for C7's amended theorem: safe zone 2, prompt of 4 tokens — the
boundary is crossed strictly, and the minimal context truncates to one
character. -/
theorem budget_error_build_minimal_context_witness :
    ((∃ e, makeContextBudget 2 3 TaskType.chat = Except.error e) ↔ 2 ≤ 3) ∧
    buildContext c7Builder String.length noOracle "abcd" [] [] TaskType.chat =
      [⟨"system", pruneSystemPrompt String.length "abcd" (safeZone c7Builder)⟩] ∧
    (∀ budget : Nat, budget < String.length "abcd" →
      pruneSystemPrompt String.length "abcd" budget =
        ("abcd" : String).take (budget * ("abcd" : String).length * 95 /
          (String.length "abcd" * 100))) ∧
    (∀ budget : Nat, String.length "abcd" ≤ budget →
      pruneSystemPrompt String.length "abcd" budget = "abcd") :=
  budget_error_build_minimal_context 2 3 TaskType.chat c7Builder String.length
    noOracle "abcd" [] [] (by decide)

end DdbAgent
